import Mathlib

/-
Shallow embedding of the `Voxset` class from `geosoft/gxpy/voxset.py`.

Modelling conventions:
  * Python floats are modelled as `ℚ`, except that a float cell value may
    also be the IEEE NaN marker; a stored float cell is therefore a
    `RawVal` (`rnum q` or `rnan`).  Integer cells are `rint n`.
  * The opaque storage backend (`gxapi.GXVOX` / `GXPG` / `GXVV`) is a
    read-only function `readRow : ℤ → ℤ → List RawVal` giving the row of
    plane `iz`, row `iy` (`read_row_3d(iz, iy, 0, nx, vv)`), together with
    the three location arrays returned by `get_location_points`.
  * numpy 1-d array indexing (used by `x_locations[ix]` and
    `self._buffer_np[ix]`) is modelled by `pyGet`: non-negative indices
    in `[0, len)` succeed, negative indices in `[-len, 0)` wrap, anything
    else raises `IndexError`.
  * Exceptions are an explicit `PyErr` value in an `Except`; mutation is
    explicit state passing on `VoxState`.
  * `readCount` is a ghost counter incremented exactly where the source
    calls `self._pg.read_row_3d`, used to state the row-cache claims.
-/

/-- Python exception kinds that the modelled code paths can surface.
`voxsetError` stands for the module's `VoxsetException` class, which the
spec calls `VoxsetError`; the source defines it but never raises it. -/
inductive PyErr
  | indexError
  | valueError
  | attributeError
  | voxsetError
deriving DecidableEq

/-- A raw stored cell value: an integer, a float, or a float NaN. -/
inductive RawVal
  | rint (n : ℤ)
  | rnum (q : ℚ)
  | rnan
deriving DecidableEq

/-- gxapi.iDUMMY, the 32-bit integer dummy sentinel. -/
def iDUMMY : ℤ := -2147483647

/-- gxapi.rDUMMY, the real (float) dummy sentinel, -1.0e32. -/
def rDUMMY : ℚ := -(10 : ℚ) ^ 32

/-- MODE_READ open-mode constant from the source. -/
def MODE_READ : ℕ := 0

/-- MODE_READWRITE open-mode constant from the source. -/
def MODE_READWRITE : ℕ := 1

/-- Resolve a Python-style index against an array of length `n`:
indices in `[0, n)` are used as-is, indices in `[-n, 0)` wrap. -/
def pyIndex (n : ℕ) (i : ℤ) : Option ℕ :=
  if 0 ≤ i ∧ i < (n : ℤ) then some i.toNat
  else if -(n : ℤ) ≤ i ∧ i < 0 then some (i + (n : ℤ)).toNat
  else none

/-- numpy 1-d array indexing `arr[i]`: wrap negative indices, raise
`IndexError` when out of range.  The default `d` is never returned on an
index accepted by `pyIndex` (it only makes `List.getD` total). -/
def pyGet {α : Type} (d : α) (l : List α) (i : ℤ) : Except PyErr α :=
  match pyIndex l.length i with
  | some j => Except.ok (l.getD j d)
  | none => Except.error PyErr.indexError

/-- The immutable data a `Voxset` reads from storage at `__init__` time:
dimensions and type from `get_info`, origin and spacing from
`get_simple_location`, the location arrays from `get_location_points`,
and the row-read interface of the pager. -/
structure VoxCore where
  nx : ℕ
  ny : ℕ
  nz : ℕ
  isInt : Bool
  x0 : ℚ
  y0 : ℚ
  z0 : ℚ
  dxv : ℚ
  dyv : ℚ
  dzv : ℚ
  xlocs : List ℚ
  ylocs : List ℚ
  zlocs : List ℚ
  readRow : ℤ → ℤ → List RawVal

/-- The mutable per-instance state of a `Voxset`. -/
structure VoxState where
  core : VoxCore
  name : String
  fileName : String
  readonly : Bool
  metadata : List (String × String)
  metadataChanged : Bool
  openRes : Bool
  gxvoxOpen : Bool
  csCache : Bool
  pgCache : Bool
  vvCache : Bool
  bufferedPlane : Option ℤ
  bufferedRow : Option ℤ
  buffer : List RawVal
  next : ℕ
  maxIter : ℕ
  readCount : ℕ

/-- Well-formedness of the storage data: the location arrays have the
advertised lengths, every storage row has `nx` cells, and rows of an
integer-typed voxset hold integer cells. -/
structure WF (c : VoxCore) : Prop where
  hx : c.xlocs.length = c.nx
  hy : c.ylocs.length = c.ny
  hz : c.zlocs.length = c.nz
  hrow : ∀ p r, (c.readRow p r).length = c.nx
  hint : c.isInt = true → ∀ p r v, v ∈ c.readRow p r → ∃ n, v = RawVal.rint n

/-- gxu.dummy_to_nan applied to a float row buffer: replace the real
dummy sentinel by NaN, in place, once per row fetch. -/
def dummyToNan (row : List RawVal) : List RawVal :=
  row.map fun r =>
    match r with
    | RawVal.rnum q => if q = rDUMMY then RawVal.rnan else RawVal.rnum q
    | x => x

/-- The row buffer contents after a fetch of plane `iz`, row `iy`:
the raw storage row, with dummy-to-NaN conversion for float types. -/
def processRow (c : VoxCore) (iz iy : ℤ) : List RawVal :=
  if c.isInt then c.readRow iz iy else dummyToNan (c.readRow iz iy)

/-- Row-cache coherence: whenever the cache markers name a (plane, row)
pair, the buffer holds exactly the processed storage row of that pair. -/
def CacheOK (s : VoxState) : Prop :=
  ∀ p r, s.bufferedPlane = some p → s.bufferedRow = some r →
    s.buffer = processRow s.core p r

/-- Python `int(float)` truncation toward zero on a rational. -/
def ratTrunc (q : ℚ) : ℤ :=
  if 0 ≤ q then ⌊q⌋ else ⌈q⌉

/-- Python `int(v)` on a buffer cell; `int(nan)` raises ValueError. -/
def intOf : RawVal → Except PyErr ℤ
  | RawVal.rint n => Except.ok n
  | RawVal.rnum q => Except.ok (ratTrunc q)
  | RawVal.rnan => Except.error PyErr.valueError

/-- The per-cell missing-value translation of `__getitem__`, as a pure
function of the processed buffer cell: integer types compare against
`iDUMMY`, float types test NaN; a present value is passed through. -/
def translateCell (isInt : Bool) (v : RawVal) : Option RawVal :=
  if isInt then
    match v with
    | RawVal.rint n => if n = iDUMMY then none else some (RawVal.rint n)
    | RawVal.rnum q => if ratTrunc q = iDUMMY then none else some (RawVal.rint (ratTrunc q))
    | RawVal.rnan => none
  else
    match v with
    | RawVal.rnan => none
    | w => some w

/-- Voxset.xyz: index the three location arrays, left to right, exactly
as `(self.x_locations[ix], self.y_locations[iy], self.z_locations[iz])`
evaluates in Python.  (The source fetches the three arrays lazily in one
bulk `get_location_points` call; since storage is read-only this is
observationally the eager read modelled here.) -/
def xyz (c : VoxCore) (ix iy iz : ℤ) : Except PyErr (ℚ × ℚ × ℚ) :=
  match pyGet 0 c.xlocs ix with
  | Except.error e => Except.error e
  | Except.ok x =>
    match pyGet 0 c.ylocs iy with
    | Except.error e => Except.error e
    | Except.ok y =>
      match pyGet 0 c.zlocs iz with
      | Except.error e => Except.error e
      | Except.ok z => Except.ok (x, y, z)

/-- The row-cache step of `__getitem__`: if the cached (plane, row)
markers differ from the requested pair, read that row from storage into
the buffer (allocating the pager and the row VV on first use), convert
dummies to NaN for float types, and update the markers; `readCount` is
the ghost row-read counter. -/
def cacheStep (s : VoxState) (iz iy : ℤ) : VoxState :=
  if s.bufferedPlane ≠ some iz ∨ s.bufferedRow ≠ some iy then
    { s with
      bufferedPlane := some iz
      bufferedRow := some iy
      buffer := processRow s.core iz iy
      pgCache := true
      vvCache := true
      readCount := s.readCount + 1 }
  else s

/-- The body of `Voxset.__getitem__` after index decoding: compute the
location via `xyz`, refresh the row cache if needed, then read and
translate the buffer cell. -/
def getitemAt (s : VoxState) (ix iy iz : ℤ) :
    Except PyErr (ℚ × ℚ × ℚ × Option RawVal) × VoxState :=
  match xyz s.core ix iy iz with
  | Except.error e => (Except.error e, s)
  | Except.ok (x, y, z) =>
    let s1 := cacheStep s iz iy
    match pyGet (RawVal.rint 0) s1.buffer ix with
    | Except.error e => (Except.error e, s1)
    | Except.ok v =>
      if s1.core.isInt then
        match intOf v with
        | Except.error e => (Except.error e, s1)
        | Except.ok n =>
          (Except.ok (x, y, z, if n = iDUMMY then none else some (RawVal.rint n)), s1)
      else
        match v with
        | RawVal.rnan => (Except.ok (x, y, z, none), s1)
        | w => (Except.ok (x, y, z, some w), s1)

/-- An index accepted by `Voxset.__getitem__`: a linear integer index or
an `(ix, iy, iz)` triple. -/
inductive VoxItem
  | linear (i : ℤ)
  | triple (ix iy iz : ℤ)

/-- Voxset.__getitem__: decode a linear index with Python floor division
and modulus (`iz = i // (nx*ny)`, `r = i - iz*nx*ny`, `ix = r % nx`,
`iy = r // nx`), or take the triple as given, then run the cell access. -/
def getitem (s : VoxState) (item : VoxItem) :
    Except PyErr (ℚ × ℚ × ℚ × Option RawVal) × VoxState :=
  match item with
  | VoxItem.linear i =>
    let iz : ℤ := Int.fdiv i ((s.core.nx : ℤ) * (s.core.ny : ℤ))
    let r : ℤ := i - iz * (s.core.nx : ℤ) * (s.core.ny : ℤ)
    getitemAt s (Int.fmod r (s.core.nx : ℤ)) (Int.fdiv r (s.core.nx : ℤ)) iz
  | VoxItem.triple ix iy iz => getitemAt s ix iy iz

/-- Voxset.__next__: at `_next >= _max_iter` reset the cursor to 0 and
stop (`Except.ok none` models `StopIteration`); otherwise fetch the cell
at the cursor and advance the cursor. -/
def voxNext (s : VoxState) :
    Except PyErr (Option (ℚ × ℚ × ℚ × Option RawVal)) × VoxState :=
  if s.maxIter ≤ s.next then (Except.ok none, { s with next := 0 })
  else
    match getitem s (VoxItem.linear (s.next : ℤ)) with
    | (Except.ok v, s') => (Except.ok (some v), { s' with next := s'.next + 1 })
    | (Except.error e, s') => (Except.error e, s')

/-- Run the iterator protocol on a voxset: repeatedly call `__next__`,
collecting yielded tuples, until `StopIteration` (or a propagated
exception); `fuel` bounds the number of `__next__` calls. -/
def iterAll : ℕ → VoxState → List (ℚ × ℚ × ℚ × Option RawVal) × VoxState
  | 0, s => ([], s)
  | Nat.succ fuel, s =>
    match voxNext s with
    | (Except.ok (some v), s') =>
      let p := iterAll fuel s'
      (v :: p.fst, p.snd)
    | (Except.ok none, s') => ([], s')
    | (Except.error _, s') => ([], s')

/-- Access cells `(0, iy, iz) … (n-1, iy, iz)` in order, keeping only the
state: one X-major sweep along a single row. -/
def sweepRow (s : VoxState) (iy iz : ℕ) (n : ℕ) : VoxState :=
  (List.range n).foldl
    (fun (st : VoxState) (jx : ℕ) =>
      (getitem st (VoxItem.triple (jx : ℤ) (iy : ℤ) (iz : ℤ))).snd) s

/-- The pure value of one cell, read directly from storage: the located
coordinates and the translated processed row cell. -/
def pureCell (c : VoxCore) (ix iy iz : ℕ) : ℚ × ℚ × ℚ × Option RawVal :=
  (c.xlocs.getD ix 0, c.ylocs.getD iy 0, c.zlocs.getD iz 0,
    translateCell c.isInt ((processRow c (iz : ℤ) (iy : ℤ)).getD ix (RawVal.rint 0)))

/-- The pure value of the cell at linear index `k` (X fastest, then Y,
then Z). -/
def pureLinear (c : VoxCore) (k : ℕ) : ℚ × ℚ × ℚ × Option RawVal :=
  pureCell c (k % (c.nx * c.ny) % c.nx) (k % (c.nx * c.ny) / c.nx) (k / (c.nx * c.ny))

/-- Whether a raw stored cell counts as the missing-value sentinel of the
voxset's value type: the integer dummy for integer types; for float
types, a value that is NaN after dummy-to-NaN conversion (the stored
real dummy, or an already-NaN cell). -/
def rawIsDummy (isInt : Bool) (r : RawVal) : Prop :=
  if isInt then r = RawVal.rint iDUMMY
  else r = RawVal.rnum rDUMMY ∨ r = RawVal.rnan

/-- Voxset.dx: the stored X spacing, or None when it is the sentinel. -/
def dxProp (s : VoxState) : Option ℚ :=
  if s.core.dxv = rDUMMY then none else some s.core.dxv

/-- Voxset.dy: the source returns `self._dx` (not `self._dy`) when the
stored Y spacing is not the sentinel — modelled exactly as written. -/
def dyProp (s : VoxState) : Option ℚ :=
  if s.core.dyv = rDUMMY then none else some s.core.dxv

/-- Voxset.dz: the stored Z spacing, or None when it is the sentinel. -/
def dzProp (s : VoxState) : Option ℚ :=
  if s.core.dzv = rDUMMY then none else some s.core.dzv

/-- Python `!=` between an `Option ℚ` (a value or None) and a number:
`None != q` is True, otherwise numeric inequality. -/
def pyNeOptRat (o : Option ℚ) (q : ℚ) : Bool :=
  match o with
  | none => true
  | some x => decide (x ≠ q)

/-- Voxset.uniform_dx: `self.dx != gxapi.rDUMMY`, where `self.dx` is the
already-None-translated property. -/
def uniform_dx (s : VoxState) : Bool := pyNeOptRat (dxProp s) rDUMMY

/-- Voxset.uniform_dy: `self.dy != gxapi.rDUMMY`. -/
def uniform_dy (s : VoxState) : Bool := pyNeOptRat (dyProp s) rDUMMY

/-- Voxset.uniform_dz: `self.dz != gxapi.rDUMMY`. -/
def uniform_dz (s : VoxState) : Bool := pyNeOptRat (dzProp s) rDUMMY

/-- Voxset.nx: returns `self._nx` with no open-state guard. -/
def nxProp (s : VoxState) : ℕ := s.core.nx

/-- Voxset.ny: returns `self._ny` with no open-state guard. -/
def nyProp (s : VoxState) : ℕ := s.core.ny

/-- Voxset.nz: returns `self._nz` with no open-state guard. -/
def nzProp (s : VoxState) : ℕ := s.core.nz

/-- Lower-case a character list (models `str.lower` on the extension). -/
def lowerChars (cs : List Char) : List Char := cs.map Char.toLower

/-- os.path.splitext on a bare file name (no directory component): split
at the last dot, except that a dot at position 0 starts no extension. -/
def extSplit (cs : List Char) : List Char × List Char :=
  let t := (cs.reverse.takeWhile (fun c => c ≠ '.')).length
  if t + 1 < cs.length then
    (cs.take (cs.length - t - 1), cs.drop (cs.length - t - 1))
  else (cs, [])

/-- The module's `_voxset_file_name`: append the canonical extension when
the name does not already carry it (case-insensitively).  `os.path.relpath`
is the identity on the plain relative names modelled here. -/
def voxsetFileName (name : String) : String :=
  if lowerChars (extSplit name.toList).snd = ".geosoft_voxel".toList then name
  else name ++ ".geosoft_voxel"

/-- The module's `_voxset_name`: the base name with the extension
stripped (`os.path.basename` is the identity on names without directory
separators, as modelled here). -/
def voxsetName (fileName : String) : String :=
  String.mk (extSplit fileName.toList).fst

/-- Voxset.open / Voxset.__init__ over an already-read storage header:
normalize the file name, read dimensions, type, origin and spacing, zero
the iteration cursor and the row cache, mark the resource open, and set
the read-only flag from the mode. -/
def openVox (name : String) (mode : ℕ) (core : VoxCore) : VoxState :=
  { core := core
    name := voxsetName (voxsetFileName name)
    fileName := voxsetFileName name
    readonly := mode = MODE_READ
    metadata := []
    metadataChanged := false
    openRes := true
    gxvoxOpen := true
    csCache := false
    pgCache := false
    vvCache := false
    bufferedPlane := none
    bufferedRow := none
    buffer := []
    next := 0
    maxIter := core.nx * core.ny * core.nz
    readCount := 0 }

/-- Modelled from the spec: the metadata mutation API (the property
setter that stores a new mapping and marks `_metadata_changed`) is not
part of the source file under src/; per the spec, mutating instance
metadata records the new mapping and sets the changed flag. -/
def setMetadata (s : VoxState) (m : List (String × String)) : VoxState :=
  { s with metadata := m, metadataChanged := true }

/-- Voxset._close: when still open, write the metadata mapping to the
sidecar file named `self._name + '.xml'` if the metadata changed, then
release the resource registration, the storage handle, the coordinate
system cache, the pager and the row VV.  The returned first component is
the sidecar write effect (file name and mapping), `none` when nothing is
written; a second close finds the instance already released and does
nothing. -/
def closeVox (s : VoxState) : Option (String × List (String × String)) × VoxState :=
  if s.openRes then
    (if s.metadataChanged then some (s.name ++ ".xml", s.metadata) else none,
      { s with
        openRes := false
        gxvoxOpen := false
        csCache := false
        pgCache := false
        vvCache := false })
  else (none, s)

/-- A concrete 2×2×1 integer demo voxset matching the spec's concrete
scenario: origin (0,0,0), unit spacing, values [[1,2],[3,4]]. -/
def demoCore : VoxCore :=
  { nx := 2
    ny := 2
    nz := 1
    isInt := true
    x0 := 0
    y0 := 0
    z0 := 0
    dxv := 1
    dyv := 1
    dzv := 1
    xlocs := [0, 1]
    ylocs := [0, 1]
    zlocs := [0]
    readRow := fun _ iy => [RawVal.rint (2 * iy + 1), RawVal.rint (2 * iy + 2)] }

/-- The demo voxset freshly opened read-only. -/
def demoS : VoxState := openVox "demo" MODE_READ demoCore

/-- A core whose three stored spacings are all the non-uniform sentinel. -/
def nonUniformCore : VoxCore :=
  { demoCore with dxv := rDUMMY, dyv := rDUMMY, dzv := rDUMMY }

/-- The non-uniform-spacing demo voxset, opened. -/
def nonUniformS : VoxState := openVox "demo" MODE_READ nonUniformCore

/-- A core with three distinct, non-sentinel stored spacings. -/
def mixedCore : VoxCore := { demoCore with dxv := 1, dyv := 2, dzv := 3 }

/-- The distinct-spacing demo voxset, opened. -/
def mixedS : VoxState := openVox "demo" MODE_READ mixedCore

/-- The demo voxset opened read-write with its metadata then mutated,
the failing input for the sidecar file-name check. -/
def c8state : VoxState :=
  setMetadata (openVox "foo" MODE_READWRITE demoCore) [("k", "v")]

/-- pyGet succeeds on an in-range natural index and returns the element. -/
theorem pyGet_nat_ok {α : Type} (d : α) (l : List α) (k : ℕ) (h : k < l.length) :
    pyGet d l (k : ℤ) = Except.ok (l.getD k d) := by
  have h0 : (0 : ℤ) ≤ (k : ℤ) := Int.natCast_nonneg k
  have h1 : (k : ℤ) < (l.length : ℤ) := by exact_mod_cast h
  simp [pyGet, pyIndex, h0, h1]

/-- pyGet raises IndexError on a too-large natural index. -/
theorem pyGet_nat_err {α : Type} (d : α) (l : List α) (k : ℕ) (h : l.length ≤ k) :
    pyGet d l (k : ℤ) = Except.error PyErr.indexError := by
  have h1 : ¬((k : ℤ) < (l.length : ℤ)) := by exact_mod_cast not_lt.mpr h
  have h2 : ¬((k : ℤ) < 0) := not_lt.mpr (Int.natCast_nonneg k)
  simp [pyGet, pyIndex, h1, h2]

/-- dummy-to-NaN conversion keeps the row length. -/
theorem dummyToNan_length (row : List RawVal) : (dummyToNan row).length = row.length := by
  simp [dummyToNan]

/-- A processed row has the storage row's length, hence `nx` cells. -/
theorem processRow_length (c : VoxCore) (wf : WF c) (iz iy : ℤ) :
    (processRow c iz iy).length = c.nx := by
  unfold processRow
  split
  · exact wf.hrow iz iy
  · rw [dummyToNan_length]; exact wf.hrow iz iy

/-- xyz succeeds on in-range indices and returns the located point. -/
theorem xyz_ok (c : VoxCore) (wf : WF c) (ix iy iz : ℕ)
    (hx : ix < c.nx) (hy : iy < c.ny) (hz : iz < c.nz) :
    xyz c (ix : ℤ) (iy : ℤ) (iz : ℤ) =
      Except.ok (c.xlocs.getD ix 0, c.ylocs.getD iy 0, c.zlocs.getD iz 0) := by
  unfold xyz
  rw [pyGet_nat_ok 0 c.xlocs ix (by rw [wf.hx]; exact hx),
    pyGet_nat_ok 0 c.ylocs iy (by rw [wf.hy]; exact hy),
    pyGet_nat_ok 0 c.zlocs iz (by rw [wf.hz]; exact hz)]

/-- The cache step, written with the complementary (hit-first) guard. -/
theorem cacheStep_eq (s : VoxState) (iz iy : ℤ) :
    cacheStep s iz iy =
      if s.bufferedPlane = some iz ∧ s.bufferedRow = some iy then s
      else
        { s with
          bufferedPlane := some iz
          bufferedRow := some iy
          buffer := processRow s.core iz iy
          pgCache := true
          vvCache := true
          readCount := s.readCount + 1 } := by
  unfold cacheStep
  by_cases h1 : s.bufferedPlane = some iz <;> by_cases h2 : s.bufferedRow = some iy <;>
    simp [h1, h2]

/-- The cache step does not touch the immutable core. -/
theorem cacheStep_core (s : VoxState) (iz iy : ℤ) : (cacheStep s iz iy).core = s.core := by
  unfold cacheStep; split <;> rfl

/-- The cache step does not touch the iteration cursor. -/
theorem cacheStep_next (s : VoxState) (iz iy : ℤ) : (cacheStep s iz iy).next = s.next := by
  unfold cacheStep; split <;> rfl

/-- The cache step does not touch the iteration bound. -/
theorem cacheStep_maxIter (s : VoxState) (iz iy : ℤ) :
    (cacheStep s iz iy).maxIter = s.maxIter := by
  unfold cacheStep; split <;> rfl

/-- After the cache step the markers name the requested (plane, row). -/
theorem cacheStep_marks (s : VoxState) (iz iy : ℤ) :
    (cacheStep s iz iy).bufferedPlane = some iz ∧
      (cacheStep s iz iy).bufferedRow = some iy := by
  rw [cacheStep_eq]
  by_cases h : s.bufferedPlane = some iz ∧ s.bufferedRow = some iy
  · rw [if_pos h]; exact h
  · rw [if_neg h]; exact ⟨rfl, rfl⟩

/-- On a cache hit the step is the identity. -/
theorem cacheStep_hit (s : VoxState) (iz iy : ℤ)
    (h : s.bufferedPlane = some iz ∧ s.bufferedRow = some iy) :
    cacheStep s iz iy = s := by
  rw [cacheStep_eq, if_pos h]

/-- Under cache coherence, after the cache step the buffer holds the
processed storage row of the requested (plane, row). -/
theorem cacheStep_buffer (s : VoxState) (iz iy : ℤ) (hc : CacheOK s) :
    (cacheStep s iz iy).buffer = processRow s.core iz iy := by
  rw [cacheStep_eq]
  by_cases h : s.bufferedPlane = some iz ∧ s.bufferedRow = some iy
  · rw [if_pos h]; exact hc iz iy h.1 h.2
  · rw [if_neg h]

/-- The ghost read counter increments exactly on a cache miss. -/
theorem cacheStep_readCount (s : VoxState) (iz iy : ℤ) :
    (cacheStep s iz iy).readCount =
      s.readCount +
        (if s.bufferedPlane = some iz ∧ s.bufferedRow = some iy then 0 else 1) := by
  rw [cacheStep_eq]
  by_cases h : s.bufferedPlane = some iz ∧ s.bufferedRow = some iy
  · rw [if_pos h, if_pos h]; rfl
  · rw [if_neg h, if_neg h]

/-- The cache step preserves cache coherence. -/
theorem cacheStep_cacheOK (s : VoxState) (iz iy : ℤ) (hc : CacheOK s) :
    CacheOK (cacheStep s iz iy) := by
  rw [cacheStep_eq]
  by_cases h : s.bufferedPlane = some iz ∧ s.bufferedRow = some iy
  · rw [if_pos h]; exact hc
  · rw [if_neg h]
    intro p r hp hr
    simp only [Option.some.injEq] at hp hr
    subst hp; subst hr
    rfl

/-- Whatever the translation outcome, a cell access with in-range indices
leaves exactly the cache-step state (the cursor is untouched and the
row-read happens iff the cache missed). -/
theorem getitemAt_snd (s : VoxState) (ix iy iz : ℕ)
    (wf : WF s.core) (hx : ix < s.core.nx) (hy : iy < s.core.ny) (hz : iz < s.core.nz) :
    (getitemAt s (ix : ℤ) (iy : ℤ) (iz : ℤ)).snd = cacheStep s (iz : ℤ) (iy : ℤ) := by
  unfold getitemAt
  rw [xyz_ok s.core wf ix iy iz hx hy hz]
  dsimp only
  rcases pyGet (RawVal.rint 0) (cacheStep s (iz : ℤ) (iy : ℤ)).buffer (ix : ℤ) with e | v
  · rfl
  · dsimp only
    split
    · rcases intOf v with e | n
      · rfl
      · rfl
    · rcases v with n | q | _
      · rfl
      · rfl
      · rfl

/-- A cell access never touches the iteration cursor, on any path. -/
theorem getitemAt_next (s : VoxState) (ix iy iz : ℤ) :
    (getitemAt s ix iy iz).snd.next = s.next := by
  have hcs := cacheStep_next s iz iy
  unfold getitemAt
  rcases xyz s.core ix iy iz with e | ⟨x, y, z⟩
  · rfl
  · dsimp only
    rcases pyGet (RawVal.rint 0) (cacheStep s iz iy).buffer ix with e | v
    · exact hcs
    · dsimp only
      split
      · rcases intOf v with e | n
        · exact hcs
        · exact hcs
      · rcases v with n | q | _
        · exact hcs
        · exact hcs
        · exact hcs

/-- Voxset.__getitem__ never touches the iteration cursor. -/
theorem getitem_next (s : VoxState) (item : VoxItem) :
    (getitem s item).snd.next = s.next := by
  cases item with
  | linear i => exact getitemAt_next s _ _ _
  | triple ix iy iz => exact getitemAt_next s ix iy iz

/-- Flooring division of natural casts is the natural division, cast. -/
theorem int_fdiv_natCast (m n : ℕ) : Int.fdiv (m : ℤ) (n : ℤ) = ((m / n : ℕ) : ℤ) :=
  (Int.ofNat_fdiv m n).symm

/-- Flooring modulus of natural casts is the natural modulus, cast. -/
theorem int_fmod_natCast (m n : ℕ) : Int.fmod (m : ℤ) (n : ℤ) = ((m % n : ℕ) : ℤ) :=
  (Int.ofNat_fmod m n).symm

/-- Linear-index access at a natural cursor value is the triple access at
the decoded natural indices (`iz = k / (nx*ny)`, then within the plane
`ix = r % nx`, `iy = r / nx`). -/
theorem getitem_linear_nat (s : VoxState) (k : ℕ) :
    getitem s (VoxItem.linear (k : ℤ)) =
      getitemAt s ((k % (s.core.nx * s.core.ny) % s.core.nx : ℕ) : ℤ)
        ((k % (s.core.nx * s.core.ny) / s.core.nx : ℕ) : ℤ)
        ((k / (s.core.nx * s.core.ny) : ℕ) : ℤ) := by
  have hmul : ((s.core.nx : ℤ) * (s.core.ny : ℤ)) = ((s.core.nx * s.core.ny : ℕ) : ℤ) := by
    push_cast; ring
  have hdz : Int.fdiv (k : ℤ) ((s.core.nx : ℤ) * (s.core.ny : ℤ))
      = ((k / (s.core.nx * s.core.ny) : ℕ) : ℤ) := by
    rw [hmul]; exact int_fdiv_natCast k (s.core.nx * s.core.ny)
  have hA : ((s.core.nx * s.core.ny : ℕ) : ℤ) * ((k / (s.core.nx * s.core.ny) : ℕ) : ℤ)
      + ((k % (s.core.nx * s.core.ny) : ℕ) : ℤ) = (k : ℤ) := by
    exact_mod_cast Nat.div_add_mod k (s.core.nx * s.core.ny)
  have hr : (k : ℤ) - ((k / (s.core.nx * s.core.ny) : ℕ) : ℤ) * (s.core.nx : ℤ) * (s.core.ny : ℤ)
      = ((k % (s.core.nx * s.core.ny) : ℕ) : ℤ) := by
    rw [mul_assoc, hmul, mul_comm ((k / (s.core.nx * s.core.ny) : ℕ) : ℤ)]
    linarith [hA]
  unfold getitem
  dsimp only
  rw [hdz, hr, int_fmod_natCast, int_fdiv_natCast]

/-- The decoded triple of a valid linear index is in bounds on each axis. -/
theorem decode_bounds (nx ny nz k : ℕ) (hk : k < nx * ny * nz) :
    k % (nx * ny) % nx < nx ∧ k % (nx * ny) / nx < ny ∧ k / (nx * ny) < nz := by
  have hpos : 0 < nx * ny * nz := Nat.lt_of_le_of_lt (Nat.zero_le k) hk
  have hnx : 0 < nx := by
    rcases Nat.eq_zero_or_pos nx with h | h
    · subst h; simp at hpos
    · exact h
  have hny : 0 < ny := by
    rcases Nat.eq_zero_or_pos ny with h | h
    · subst h; simp at hpos
    · exact h
  have hA : 0 < nx * ny := Nat.mul_pos hnx hny
  refine ⟨Nat.mod_lt _ hnx, ?_, ?_⟩
  · exact Nat.div_lt_of_lt_mul (Nat.mod_lt _ hA)
  · exact Nat.div_lt_of_lt_mul hk

/-- The central cell-access lemma: with coherent cache and in-range
indices, `__getitem__` returns the pure cell value read straight from
storage, and the new state is exactly the cache-step state. -/
theorem getitemAt_spec (s : VoxState) (ix iy iz : ℕ)
    (wf : WF s.core) (hc : CacheOK s)
    (hx : ix < s.core.nx) (hy : iy < s.core.ny) (hz : iz < s.core.nz) :
    getitemAt s (ix : ℤ) (iy : ℤ) (iz : ℤ) =
      (Except.ok (pureCell s.core ix iy iz), cacheStep s (iz : ℤ) (iy : ℤ)) := by
  have hbuf : (cacheStep s (iz : ℤ) (iy : ℤ)).buffer = processRow s.core (iz : ℤ) (iy : ℤ) :=
    cacheStep_buffer s (iz : ℤ) (iy : ℤ) hc
  have hlen : (processRow s.core (iz : ℤ) (iy : ℤ)).length = s.core.nx :=
    processRow_length s.core wf (iz : ℤ) (iy : ℤ)
  have hxlen : ix < (cacheStep s (iz : ℤ) (iy : ℤ)).buffer.length := by
    rw [hbuf, hlen]; exact hx
  have hcore : (cacheStep s (iz : ℤ) (iy : ℤ)).core = s.core := cacheStep_core s _ _
  unfold getitemAt
  rw [xyz_ok s.core wf ix iy iz hx hy hz]
  dsimp only
  rw [pyGet_nat_ok (RawVal.rint 0) _ ix hxlen, hbuf, hcore]
  dsimp only
  unfold pureCell
  by_cases hInt : s.core.isInt = true
  · have hrowlen : ix < (s.core.readRow (iz : ℤ) (iy : ℤ)).length := by
      rw [wf.hrow]; exact hx
    have hproc : processRow s.core (iz : ℤ) (iy : ℤ) = s.core.readRow (iz : ℤ) (iy : ℤ) := by
      unfold processRow; rw [hInt]; simp
    have hmem : (processRow s.core (iz : ℤ) (iy : ℤ)).getD ix (RawVal.rint 0)
        ∈ s.core.readRow (iz : ℤ) (iy : ℤ) := by
      rw [hproc, List.getD_eq_getElem _ _ hrowlen]
      exact List.getElem_mem hrowlen
    obtain ⟨n, hn⟩ := wf.hint hInt (iz : ℤ) (iy : ℤ) _ hmem
    rw [hInt, hn]
    unfold intOf translateCell
    simp only [if_pos rfl, if_true]
  · have hInt' : s.core.isInt = false := by
      simp only [Bool.not_eq_true] at hInt; exact hInt
    rw [hInt']
    unfold translateCell
    simp only [Bool.false_eq_true, if_false]
    rcases hv : (processRow s.core (iz : ℤ) (iy : ℤ)).getD ix (RawVal.rint 0) with n | q | _
    · rfl
    · rfl
    · rfl

/-- Triple indexing is the cell access at the given indices. -/
theorem getitem_triple_eq (s : VoxState) (ix iy iz : ℤ) :
    getitem s (VoxItem.triple ix iy iz) = getitemAt s ix iy iz := rfl

/-- Repeated accesses along an already-cached row leave the state
untouched: every one is a cache hit. -/
theorem sweep_aux (iy iz : ℕ) (L : List ℕ) : ∀ s : VoxState, WF s.core →
    iy < s.core.ny → iz < s.core.nz → (∀ j ∈ L, j < s.core.nx) →
    s.bufferedPlane = some (iz : ℤ) → s.bufferedRow = some (iy : ℤ) →
    L.foldl
      (fun (st : VoxState) (jx : ℕ) =>
        (getitem st (VoxItem.triple (jx : ℤ) (iy : ℤ) (iz : ℤ))).snd) s
      = s := by
  induction L with
  | nil => intro s _ _ _ _ _ _; rfl
  | cons j L ih =>
    intro s wf hy hz hL hp hr
    have hstep : (getitem s (VoxItem.triple (j : ℤ) (iy : ℤ) (iz : ℤ))).snd = s := by
      rw [getitem_triple_eq,
        getitemAt_snd s j iy iz wf (hL j (List.mem_cons_self j L)) hy hz]
      exact cacheStep_hit s (iz : ℤ) (iy : ℤ) ⟨hp, hr⟩
    rw [List.foldl_cons]
    rw [hstep]
    exact ih s wf hy hz (fun a ha => hL a (List.mem_cons_of_mem j ha)) hp hr

/-- An X-major sweep of one full row is the single cache step of that
row: the first access settles the cache, the rest are hits. -/
theorem sweepRow_eq (s : VoxState) (iy iz : ℕ) (wf : WF s.core)
    (hy : iy < s.core.ny) (hz : iz < s.core.nz) (hnx : 1 ≤ s.core.nx) :
    sweepRow s iy iz s.core.nx = cacheStep s (iz : ℤ) (iy : ℤ) := by
  obtain ⟨m, hm⟩ : ∃ m, s.core.nx = m + 1 := ⟨s.core.nx - 1, by omega⟩
  unfold sweepRow
  rw [hm, List.range_succ_eq_map, List.foldl_cons]
  have h0 : (getitem s (VoxItem.triple ((0 : ℕ) : ℤ) (iy : ℤ) (iz : ℤ))).snd
      = cacheStep s (iz : ℤ) (iy : ℤ) := by
    rw [getitem_triple_eq, getitemAt_snd s 0 iy iz wf (by omega) hy hz]
  rw [h0]
  have hmarks := cacheStep_marks s (iz : ℤ) (iy : ℤ)
  have hcore := cacheStep_core s (iz : ℤ) (iy : ℤ)
  exact sweep_aux iy iz ((List.range m).map Nat.succ) (cacheStep s (iz : ℤ) (iy : ℤ))
    (by rw [hcore]; exact wf)
    (by rw [hcore]; exact hy)
    (by rw [hcore]; exact hz)
    (by
      intro a ha
      rw [hcore, hm]
      obtain ⟨b, hb, hba⟩ := List.mem_map.mp ha
      have hbm := List.mem_range.mp hb
      omega)
    hmarks.1 hmarks.2

/-- The __next__ equation at exhaustion: reset the cursor and stop. -/
theorem voxNext_stop (s : VoxState) (h : s.maxIter ≤ s.next) :
    voxNext s = (Except.ok none, { s with next := 0 }) := by
  unfold voxNext; rw [if_pos h]

/-- The __next__ equation below the bound: delegate and advance. -/
theorem voxNext_step (s : VoxState) (h : ¬s.maxIter ≤ s.next) :
    voxNext s =
      (match getitem s (VoxItem.linear (s.next : ℤ)) with
        | (Except.ok v, s') => (Except.ok (some v), { s' with next := s'.next + 1 })
        | (Except.error e, s') => (Except.error e, s')) := by
  unfold voxNext; rw [if_neg h]

/-- Unfolding of one fuelled iterator step. -/
theorem iterAll_succ (fuel : ℕ) (s : VoxState) :
    iterAll (fuel + 1) s =
      match voxNext s with
      | (Except.ok (some v), s') => (v :: (iterAll fuel s').fst, (iterAll fuel s').snd)
      | (Except.ok none, s') => ([], s')
      | (Except.error _, s') => ([], s') := rfl

/-- Running the iterator with `k` yields left before exhaustion produces
exactly the pure cell values at linear indices `next, …, next + k - 1`,
ends with the cursor reset to 0, and preserves the core, the bound and
cache coherence. -/
theorem iterAll_run (k : ℕ) : ∀ s : VoxState, WF s.core → CacheOK s →
    s.maxIter = s.core.nx * s.core.ny * s.core.nz →
    s.next + k = s.maxIter →
    ∃ s', iterAll (k + 1) s
        = ((List.range k).map (fun j => pureLinear s.core (s.next + j)), s')
      ∧ s'.core = s.core ∧ s'.next = 0 ∧ s'.maxIter = s.maxIter ∧ CacheOK s' := by
  induction k with
  | zero =>
    intro s wf hc hmax hk
    refine ⟨{ s with next := 0 }, ?_, rfl, rfl, rfl, ?_⟩
    · have hstop := voxNext_stop s (by omega)
      rw [iterAll_succ 0 s, hstop]
      rfl
    · intro p r hp hr
      exact hc p r hp hr
  | succ k ih =>
    intro s wf hc hmax hk
    have hkN : s.next < s.core.nx * s.core.ny * s.core.nz := by omega
    obtain ⟨hbx, hby, hbz⟩ := decode_bounds s.core.nx s.core.ny s.core.nz s.next hkN
    have hget : getitem s (VoxItem.linear (s.next : ℤ))
        = (Except.ok (pureLinear s.core s.next),
            cacheStep s ((s.next / (s.core.nx * s.core.ny) : ℕ) : ℤ)
              ((s.next % (s.core.nx * s.core.ny) / s.core.nx : ℕ) : ℤ)) := by
      rw [getitem_linear_nat s s.next, getitemAt_spec s _ _ _ wf hc hbx hby hbz]
      rfl
    set s1 := cacheStep s ((s.next / (s.core.nx * s.core.ny) : ℕ) : ℤ)
      ((s.next % (s.core.nx * s.core.ny) / s.core.nx : ℕ) : ℤ) with hs1def
    have hs1core : s1.core = s.core := cacheStep_core s _ _
    have hs1next : s1.next = s.next := cacheStep_next s _ _
    have hs1max : s1.maxIter = s.maxIter := cacheStep_maxIter s _ _
    have hs1c : CacheOK s1 := cacheStep_cacheOK s _ _ hc
    have hstep : voxNext s
        = (Except.ok (some (pureLinear s.core s.next)), { s1 with next := s1.next + 1 }) := by
      rw [voxNext_step s (by omega), hget]
    have hs2core : ({ s1 with next := s1.next + 1 } : VoxState).core = s.core := hs1core
    have hs2c : CacheOK ({ s1 with next := s1.next + 1 } : VoxState) := by
      intro p r hp hr
      exact hs1c p r hp hr
    obtain ⟨s', hrun, h1, h2, h3, h4⟩ := ih { s1 with next := s1.next + 1 }
      (by rw [hs2core]; exact wf) hs2c
      (by show s1.maxIter = s1.core.nx * s1.core.ny * s1.core.nz
          rw [hs1max, hs1core]; exact hmax)
      (by show s1.next + 1 + k = s1.maxIter
          rw [hs1next, hs1max]; omega)
    refine ⟨s', ?_, h1.trans hs2core, h2, h3.trans hs1max, h4⟩
    rw [iterAll_succ (k + 1) s, hstep]
    dsimp only
    rw [hrun]
    have hlist : (List.range k).map
        (fun j => pureLinear ({ s1 with next := s1.next + 1 } : VoxState).core
          (({ s1 with next := s1.next + 1 } : VoxState).next + j))
        = (List.range k).map (fun j => pureLinear s.core (s.next + 1 + j)) := by
      congr 1
      funext j
      rw [hs2core]
      congr 1
      show s1.next + 1 + j = s.next + 1 + j
      rw [hs1next]
    rw [hlist, List.range_succ_eq_map, List.map_cons, List.map_map]
    dsimp only
    rw [Nat.add_zero]
    have htail : (List.range k).map
        ((fun j => pureLinear s.core (s.next + j)) ∘ Nat.succ)
        = (List.range k).map (fun j => pureLinear s.core (s.next + 1 + j)) := by
      congr 1
      funext j
      show pureLinear s.core (s.next + (j + 1)) = pureLinear s.core (s.next + 1 + j)
      congr 1
      omega
    rw [htail]
    rfl

/-- The demo voxset's storage data is well-formed. -/
theorem demoWF : WF demoCore := by
  refine ⟨rfl, rfl, rfl, fun p r => rfl, ?_⟩
  intro _ p r v hv
  rcases List.mem_cons.mp hv with h | h
  · exact ⟨2 * r + 1, h⟩
  · rcases List.mem_cons.mp h with h2 | h2
    · exact ⟨2 * r + 2, h2⟩
    · exact absurd h2 (List.not_mem_nil v)

/-- A freshly opened voxset has a coherent (empty) row cache. -/
theorem openVox_cacheOK (name : String) (mode : ℕ) (core : VoxCore) :
    CacheOK (openVox name mode core) := by
  intro p r hp _
  simp [openVox] at hp

/-- C1: on a voxset whose stored spacings all equal the non-uniform
sentinel, all three uniform-spacing predicates still return true — the
source compares the already-None-translated `dx/dy/dz` properties (not
the stored values) against `rDUMMY`, and in Python `None != rDUMMY` is
True, so the predicates can never report false.  This contradicts the
claim and the accessors' own docstrings ("True if … separation is
constant"). -/
theorem c1_uniform_always_true_at_sentinel :
    nonUniformS.core.dxv = rDUMMY ∧ nonUniformS.core.dyv = rDUMMY ∧
      nonUniformS.core.dzv = rDUMMY ∧
      uniform_dx nonUniformS = true ∧ uniform_dy nonUniformS = true ∧
      uniform_dz nonUniformS = true :=
  ⟨rfl, rfl, rfl, by decide, by decide, by decide⟩

/-- C2: with stored spacings (dx, dy, dz) = (1, 2, 3) — none the
sentinel — the `dy` accessor returns the stored X spacing 1 instead of
the stored Y spacing 2 (the source returns `self._dx` in the `dy`
property); the X and Z accessors return their own stored values. -/
theorem c2_dy_returns_stored_dx :
    mixedS.core.dyv = 2 ∧ dyProp mixedS = some 1 ∧
      some (1 : ℚ) ≠ some (2 : ℚ) ∧
      dxProp mixedS = some 1 ∧ dzProp mixedS = some 3 := by
  refine ⟨rfl, ?_, by decide, ?_, ?_⟩ <;> decide

/-- C8: evaluation at the failing input — open "foo" read-write, mutate
the metadata, close.  The sidecar is written exactly once (the second
close is a no-op) and the handle and caches are released, but the file
written is "foo.xml" — the bare voxset name plus ".xml" — not the
"<path>.xml" = "foo.geosoft_voxel.xml" that the claim states and that
the module's own `delete_files` pairing removes. -/
theorem c8_sidecar_written_to_bare_name :
    (closeVox c8state).fst = some ("foo.xml", [("k", "v")]) ∧
      c8state.fileName ++ ".xml" = "foo.geosoft_voxel.xml" ∧
      "foo.xml" ≠ "foo.geosoft_voxel.xml" ∧
      (closeVox (closeVox c8state).snd).fst = none ∧
      (closeVox (closeVox c8state).snd).snd = (closeVox c8state).snd ∧
      (closeVox c8state).snd.openRes = false ∧
      (closeVox c8state).snd.gxvoxOpen = false ∧
      (closeVox c8state).snd.csCache = false ∧
      (closeVox c8state).snd.vvCache = false := by
  refine ⟨?_, ?_, by decide, ?_, ?_, rfl, rfl, rfl, rfl⟩ <;> rfl

/-- C9 counterexample: after closing the demo voxset the instance is
released (`openRes = false`), yet the dimension queries still answer
normally with (2, 2, 1) instead of failing fast with a VoxsetError of
any kind — the source has no post-close guard on any property. -/
theorem c9_closed_dimensions_still_answer :
    (closeVox demoS).snd.openRes = false ∧
      nxProp (closeVox demoS).snd = 2 ∧
      nyProp (closeVox demoS).snd = 2 ∧
      nzProp (closeVox demoS).snd = 1 :=
  ⟨rfl, rfl, rfl, rfl⟩

/-- C9 amended: operations on a closed voxset are not guarded: the
dimension accessors still succeed after close and return the values
read at open, unchanged. -/
theorem c9_amended_no_post_close_guard (s : VoxState) :
    nxProp (closeVox s).snd = nxProp s ∧
      nyProp (closeVox s).snd = nyProp s ∧
      nzProp (closeVox s).snd = nzProp s := by
  unfold closeVox
  split <;> exact ⟨rfl, rfl, rfl⟩

/-- pyGet at the literal index 0 on a nonempty array. -/
theorem pyGet_zero {α : Type} (d : α) (l : List α) (h : 0 < l.length) :
    pyGet d l 0 = Except.ok (l.getD 0 d) := by
  have h0 := pyGet_nat_ok d l 0 h
  simpa using h0

/-- C7 counterexample: at the concrete demo voxset (nx = ny = 2, nz = 1)
the lookup `xyz(nx, 0, 0)` does fail, but the surfaced failure is the
underlying array's IndexError, which is not the module's VoxsetError of
any kind; moreover the out-of-range triple `(-1, 0, 0)` does not fail at
all — numpy wraps the negative index and returns the last X location. -/
theorem c7_xyz_raises_indexerror_not_voxseterror :
    xyz demoCore 2 0 0 = Except.error PyErr.indexError ∧
      PyErr.indexError ≠ PyErr.voxsetError ∧
      xyz demoCore (-1) 0 0 = Except.ok (1, 0, 0) := by
  refine ⟨rfl, by decide, rfl⟩

/-- C7 amended: `xyz(nx, 0, 0)`, `xyz(0, ny, 0)` and `xyz(0, 0, nz)`
each fail immediately, but with the underlying array's own
index-out-of-range failure (IndexError), which is not wrapped into a
VoxsetError. -/
theorem c7_amended_bounds_fail_with_indexerror (c : VoxCore) (wf : WF c)
    (hnx : 1 ≤ c.nx) (hny : 1 ≤ c.ny) :
    xyz c (c.nx : ℤ) 0 0 = Except.error PyErr.indexError ∧
      xyz c 0 (c.ny : ℤ) 0 = Except.error PyErr.indexError ∧
      xyz c 0 0 (c.nz : ℤ) = Except.error PyErr.indexError := by
  have hx0 : 0 < c.xlocs.length := by rw [wf.hx]; omega
  have hy0 : 0 < c.ylocs.length := by rw [wf.hy]; omega
  refine ⟨?_, ?_, ?_⟩
  · unfold xyz
    rw [pyGet_nat_err 0 c.xlocs c.nx (le_of_eq wf.hx)]
  · unfold xyz
    rw [pyGet_zero 0 c.xlocs hx0]
    dsimp only
    rw [pyGet_nat_err 0 c.ylocs c.ny (le_of_eq wf.hy)]
  · unfold xyz
    rw [pyGet_zero 0 c.xlocs hx0]
    dsimp only
    rw [pyGet_zero 0 c.ylocs hy0]
    dsimp only
    rw [pyGet_nat_err 0 c.zlocs c.nz (le_of_eq wf.hz)]

/-- Witness for the amended C7 at the demo voxset. -/
theorem c7_amended_witness :
    (1 ≤ demoCore.nx ∧ 1 ≤ demoCore.ny) ∧
      (xyz demoCore (demoCore.nx : ℤ) 0 0 = Except.error PyErr.indexError ∧
        xyz demoCore 0 (demoCore.ny : ℤ) 0 = Except.error PyErr.indexError ∧
        xyz demoCore 0 0 (demoCore.nz : ℤ) = Except.error PyErr.indexError) :=
  ⟨⟨by decide, by decide⟩,
    c7_amended_bounds_fail_with_indexerror demoCore demoWF (by decide) (by decide)⟩

/-- C3: round-trip indexing — for every in-range triple, indexing by the
linear index `iz*nx*ny + iy*nx + ix` and indexing by the triple produce
the identical result (the same located 4-tuple, and even the same
post-access state, since the decoded indices coincide). -/
theorem c3_roundtrip_indexing (s : VoxState) (ix iy iz : ℕ)
    (hx : ix < s.core.nx) (hy : iy < s.core.ny) (hz : iz < s.core.nz) :
    getitem s (VoxItem.linear
        ((iz * (s.core.nx * s.core.ny) + iy * s.core.nx + ix : ℕ) : ℤ))
      = getitem s (VoxItem.triple (ix : ℤ) (iy : ℤ) (iz : ℤ)) := by
  have hnx : 0 < s.core.nx := by omega
  have hny : 0 < s.core.ny := by omega
  have hA : 0 < s.core.nx * s.core.ny := Nat.mul_pos hnx hny
  have hshape : iz * (s.core.nx * s.core.ny) + iy * s.core.nx + ix
      = (iy * s.core.nx + ix) + (s.core.nx * s.core.ny) * iz := by ring
  have hlt : iy * s.core.nx + ix < s.core.nx * s.core.ny :=
    calc iy * s.core.nx + ix < iy * s.core.nx + s.core.nx :=
          Nat.add_lt_add_left hx (iy * s.core.nx)
      _ = (iy + 1) * s.core.nx := by ring
      _ ≤ s.core.ny * s.core.nx := Nat.mul_le_mul_right _ (Nat.succ_le_of_lt hy)
      _ = s.core.nx * s.core.ny := by ring
  have hshape2 : iy * s.core.nx + ix = ix + s.core.nx * iy := by ring
  have e1 : (iz * (s.core.nx * s.core.ny) + iy * s.core.nx + ix) / (s.core.nx * s.core.ny)
      = iz := by
    rw [hshape, Nat.add_mul_div_left _ _ hA, Nat.div_eq_of_lt hlt, Nat.zero_add]
  have e2 : (iz * (s.core.nx * s.core.ny) + iy * s.core.nx + ix) % (s.core.nx * s.core.ny)
      = iy * s.core.nx + ix := by
    rw [hshape, Nat.add_mul_mod_self_left, Nat.mod_eq_of_lt hlt]
  have e3 : (iy * s.core.nx + ix) % s.core.nx = ix := by
    rw [hshape2, Nat.add_mul_mod_self_left, Nat.mod_eq_of_lt hx]
  have e4 : (iy * s.core.nx + ix) / s.core.nx = iy := by
    rw [hshape2, Nat.add_mul_div_left _ _ hnx, Nat.div_eq_of_lt hx, Nat.zero_add]
  rw [getitem_linear_nat s (iz * (s.core.nx * s.core.ny) + iy * s.core.nx + ix),
    getitem_triple_eq, e2, e3, e4, e1]

/-- Witness for C3 at the demo voxset, cell (1, 0, 0), linear index 1. -/
theorem c3_roundtrip_witness :
    (1 < demoS.core.nx ∧ 0 < demoS.core.ny ∧ 0 < demoS.core.nz) ∧
      getitem demoS (VoxItem.linear
          ((0 * (demoS.core.nx * demoS.core.ny) + 0 * demoS.core.nx + 1 : ℕ) : ℤ))
        = getitem demoS (VoxItem.triple ((1 : ℕ) : ℤ) ((0 : ℕ) : ℤ) ((0 : ℕ) : ℤ)) :=
  ⟨⟨by decide, by decide, by decide⟩,
    c3_roundtrip_indexing demoS 1 0 0 (by decide) (by decide) (by decide)⟩

/-- C10: random access never moves the iteration cursor — `__getitem__`
leaves `_next` unchanged on every path (any index form, any outcome);
only `__next__` advances it: a successful step below the bound adds
exactly one, and at the bound the cursor resets to 0. -/
theorem c10_getitem_preserves_cursor (s : VoxState) (item : VoxItem)
    (h : s.next < s.maxIter) (hv : ∃ r, (voxNext s).fst = Except.ok r) :
    (getitem s item).snd.next = s.next ∧
      (voxNext s).snd.next = s.next + 1 ∧
      (∀ t : VoxState, t.maxIter ≤ t.next → (voxNext t).snd.next = 0) := by
  refine ⟨getitem_next s item, ?_, ?_⟩
  · rcases hgi : getitem s (VoxItem.linear (s.next : ℤ)) with ⟨res, s1⟩
    have hg : s1.next = s.next := by
      have h0 := getitem_next s (VoxItem.linear (s.next : ℤ))
      rw [hgi] at h0
      exact h0
    rcases res with e | v
    · obtain ⟨r, hr⟩ := hv
      rw [voxNext_step s (not_le.mpr h), hgi] at hr
      exact Except.noConfusion (show Except.error e = Except.ok r from hr)
    · rw [voxNext_step s (not_le.mpr h), hgi]
      show s1.next + 1 = s.next + 1
      rw [hg]
  · intro t ht
    rw [voxNext_stop t ht]

/-- Witness for C10 at the freshly opened demo voxset. -/
theorem c10_cursor_witness :
    demoS.next < demoS.maxIter ∧ (∃ r, (voxNext demoS).fst = Except.ok r) ∧
      ((getitem demoS (VoxItem.triple 1 0 0)).snd.next = demoS.next ∧
        (voxNext demoS).snd.next = demoS.next + 1 ∧
        (∀ t : VoxState, t.maxIter ≤ t.next → (voxNext t).snd.next = 0)) :=
  ⟨by decide, ⟨some (0, 0, 0, some (RawVal.rint 1)), rfl⟩,
    c10_getitem_preserves_cursor demoS (VoxItem.triple 1 0 0) (by decide)
      ⟨some (0, 0, 0, some (RawVal.rint 1)), rfl⟩⟩

/-- The translated processed cell is None exactly on the type's dummy
sentinel, and passes any other stored cell through unchanged. -/
theorem translate_char (c : VoxCore) (wf : WF c) (iz iy : ℤ) (ix : ℕ)
    (hxlen : ix < (c.readRow iz iy).length) :
    (translateCell c.isInt ((processRow c iz iy).getD ix (RawVal.rint 0)) = none
      ↔ rawIsDummy c.isInt ((c.readRow iz iy).getD ix (RawVal.rint 0)))
    ∧ ∀ w, translateCell c.isInt ((processRow c iz iy).getD ix (RawVal.rint 0)) = some w
        → w = (c.readRow iz iy).getD ix (RawVal.rint 0) := by
  by_cases hb : c.isInt = true
  · have hproc : processRow c iz iy = c.readRow iz iy := by
      unfold processRow; rw [hb]; simp
    have hmem : (c.readRow iz iy).getD ix (RawVal.rint 0) ∈ c.readRow iz iy := by
      rw [List.getD_eq_getElem _ _ hxlen]
      exact List.getElem_mem hxlen
    obtain ⟨n, hn⟩ := wf.hint hb iz iy _ hmem
    rw [hproc, hn]
    unfold translateCell rawIsDummy
    rw [hb]
    by_cases hd : n = iDUMMY
    · subst hd
      constructor
      · simp
      · intro w hw
        simp at hw
    · constructor
      · simp [hd]
      · intro w hw
        simp [hd] at hw
        exact hw.symm
  · have hb' : c.isInt = false := by
      simp only [Bool.not_eq_true] at hb; exact hb
    have hproc0 : processRow c iz iy = dummyToNan (c.readRow iz iy) := by
      unfold processRow; rw [hb']; simp
    have hgd : (dummyToNan (c.readRow iz iy)).getD ix (RawVal.rint 0)
        = match (c.readRow iz iy).getD ix (RawVal.rint 0) with
          | RawVal.rnum q => if q = rDUMMY then RawVal.rnan else RawVal.rnum q
          | x => x := by
      unfold dummyToNan
      rw [List.getD_eq_getElem _ _ (by rw [List.length_map]; exact hxlen),
        List.getElem_map, List.getD_eq_getElem _ _ hxlen]
    rw [hproc0, hgd]
    unfold translateCell rawIsDummy
    rw [hb']
    rcases hraw : (c.readRow iz iy).getD ix (RawVal.rint 0) with n | q | _
    · constructor
      · simp
      · intro w hw
        simp at hw
        exact hw.symm
    · by_cases hq : q = rDUMMY
      · subst hq
        constructor
        · simp
        · intro w hw
          simp at hw
      · constructor
        · simp [hq]
        · intro w hw
          simp [hq] at hw
          exact hw.symm
    · constructor
      · simp
      · intro w hw
        simp at hw

/-- C5: missing-value translation — at any in-range cell, the access
succeeds and the returned value component is None exactly when the raw
stored cell equals the voxset type's dummy sentinel (the integer dummy
for integer voxsets; for float voxsets, a cell that is NaN after the
per-row dummy-to-NaN conversion, i.e. the stored real dummy or an
already-NaN cell); any non-missing cell's value is the stored value,
unchanged. -/
theorem c5_missing_value_translation (s : VoxState) (ix iy iz : ℕ)
    (wf : WF s.core) (hc : CacheOK s)
    (hx : ix < s.core.nx) (hy : iy < s.core.ny) (hz : iz < s.core.nz) :
    ∃ x y z v,
      (getitem s (VoxItem.triple (ix : ℤ) (iy : ℤ) (iz : ℤ))).fst
          = Except.ok (x, y, z, v)
        ∧ (v = none ↔ rawIsDummy s.core.isInt
            ((s.core.readRow (iz : ℤ) (iy : ℤ)).getD ix (RawVal.rint 0)))
        ∧ ∀ w, v = some w →
            w = (s.core.readRow (iz : ℤ) (iy : ℤ)).getD ix (RawVal.rint 0) := by
  rw [getitem_triple_eq, getitemAt_spec s ix iy iz wf hc hx hy hz]
  have hxlen : ix < (s.core.readRow (iz : ℤ) (iy : ℤ)).length := by
    rw [wf.hrow]; exact hx
  obtain ⟨h1, h2⟩ := translate_char s.core wf (iz : ℤ) (iy : ℤ) ix hxlen
  exact ⟨_, _, _, _, rfl, h1, h2⟩

/-- Witness for C5 at the demo voxset, cell (0, 0, 0). -/
theorem c5_missing_value_witness :
    (0 < demoS.core.nx ∧ 0 < demoS.core.ny ∧ 0 < demoS.core.nz) ∧
      ∃ x y z v,
        (getitem demoS (VoxItem.triple ((0 : ℕ) : ℤ) ((0 : ℕ) : ℤ) ((0 : ℕ) : ℤ))).fst
            = Except.ok (x, y, z, v)
          ∧ (v = none ↔ rawIsDummy demoS.core.isInt
              ((demoS.core.readRow ((0 : ℕ) : ℤ) ((0 : ℕ) : ℤ)).getD 0 (RawVal.rint 0)))
          ∧ ∀ w, v = some w →
              w = (demoS.core.readRow ((0 : ℕ) : ℤ) ((0 : ℕ) : ℤ)).getD 0 (RawVal.rint 0) :=
  ⟨⟨by decide, by decide, by decide⟩,
    c5_missing_value_translation demoS 0 0 0 demoWF (openVox_cacheOK "demo" MODE_READ demoCore)
      (by decide) (by decide) (by decide)⟩

/-- C4: iteration completeness and restartability — iterating a voxset
with the cursor at 0 yields exactly the N = nx*ny*nz cell tuples, in
linear order (X fastest, then Y, then Z: the k-th yield is the pure cell
at linear index k), after which the cursor is back at 0, and iterating
the same instance again yields the identical list. -/
theorem c4_iteration_complete_restartable (s : VoxState)
    (wf : WF s.core) (hc : CacheOK s)
    (hmax : s.maxIter = s.core.nx * s.core.ny * s.core.nz) (h0 : s.next = 0) :
    ∃ s1 s2,
      iterAll (s.maxIter + 1) s
          = ((List.range s.maxIter).map (pureLinear s.core), s1)
        ∧ ((List.range s.maxIter).map (pureLinear s.core)).length = s.maxIter
        ∧ s1.next = 0 ∧ s1.core = s.core
        ∧ iterAll (s.maxIter + 1) s1
            = ((List.range s.maxIter).map (pureLinear s.core), s2)
        ∧ s2.next = 0 := by
  obtain ⟨s1, hrun1, hco1, hn1, hm1, hc1⟩ := iterAll_run s.maxIter s wf hc hmax (by omega)
  have hlfix : (List.range s.maxIter).map (fun j => pureLinear s.core (s.next + j))
      = (List.range s.maxIter).map (pureLinear s.core) := by
    congr 1
    funext j
    rw [h0, Nat.zero_add]
  obtain ⟨s2, hrun2, hco2, hn2, hm2, hc2⟩ := iterAll_run s1.maxIter s1
    (by rw [hco1]; exact wf) hc1
    (by rw [hm1, hco1]; exact hmax) (by omega)
  have hfun : (fun j => pureLinear s1.core (s1.next + j)) = pureLinear s.core := by
    funext j
    rw [hco1, hn1, Nat.zero_add]
  rw [hm1] at hrun2
  rw [hfun] at hrun2
  refine ⟨s1, s2, ?_, by simp, hn1, hco1, hrun2, hn2⟩
  rw [hrun1, hlfix]

/-- Witness for C4 at the demo voxset (N = 4). -/
theorem c4_iteration_witness :
    (demoS.maxIter = demoS.core.nx * demoS.core.ny * demoS.core.nz ∧ demoS.next = 0) ∧
      ∃ s1 s2,
        iterAll (demoS.maxIter + 1) demoS
            = ((List.range demoS.maxIter).map (pureLinear demoS.core), s1)
          ∧ ((List.range demoS.maxIter).map (pureLinear demoS.core)).length = demoS.maxIter
          ∧ s1.next = 0 ∧ s1.core = demoS.core
          ∧ iterAll (demoS.maxIter + 1) s1
              = ((List.range demoS.maxIter).map (pureLinear demoS.core), s2)
          ∧ s2.next = 0 :=
  ⟨⟨rfl, rfl⟩,
    c4_iteration_complete_restartable demoS demoWF
      (openVox_cacheOK "demo" MODE_READ demoCore) rfl rfl⟩

/-- C6: single-slot row cache — a cell access performs a storage
row-read iff the requested (plane, row) differs from the cached pair,
and afterwards the cached pair is the requested one; hence an X-major
sweep of all nx cells of one row from a non-matching cache costs exactly
one row-read, sweeping a different row next costs exactly one more, and
re-visiting the first (now evicted) row costs yet another. -/
theorem c6_row_cache_single_slot (s : VoxState) (iy iz iy' iz' : ℕ)
    (wf : WF s.core)
    (hy : iy < s.core.ny) (hz : iz < s.core.nz)
    (hy' : iy' < s.core.ny) (hz' : iz' < s.core.nz)
    (hnx : 1 ≤ s.core.nx)
    (hmiss : ¬(s.bufferedPlane = some (iz : ℤ) ∧ s.bufferedRow = some (iy : ℤ)))
    (hne : ¬(iz' = iz ∧ iy' = iy)) :
    (∀ (t : VoxState) (jx jy jz : ℕ), WF t.core →
      jx < t.core.nx → jy < t.core.ny → jz < t.core.nz →
      (getitem t (VoxItem.triple (jx : ℤ) (jy : ℤ) (jz : ℤ))).snd.readCount
          = t.readCount
            + (if t.bufferedPlane = some (jz : ℤ) ∧ t.bufferedRow = some (jy : ℤ)
                then 0 else 1)
        ∧ (getitem t (VoxItem.triple (jx : ℤ) (jy : ℤ) (jz : ℤ))).snd.bufferedPlane
            = some (jz : ℤ)
        ∧ (getitem t (VoxItem.triple (jx : ℤ) (jy : ℤ) (jz : ℤ))).snd.bufferedRow
            = some (jy : ℤ))
    ∧ (sweepRow s iy iz s.core.nx).readCount = s.readCount + 1
    ∧ (sweepRow (sweepRow s iy iz s.core.nx) iy' iz' s.core.nx).readCount
        = s.readCount + 2
    ∧ (sweepRow (sweepRow (sweepRow s iy iz s.core.nx) iy' iz' s.core.nx) iy iz
          s.core.nx).readCount
        = s.readCount + 3 := by
  have part1 : ∀ (t : VoxState) (jx jy jz : ℕ), WF t.core →
      jx < t.core.nx → jy < t.core.ny → jz < t.core.nz →
      (getitem t (VoxItem.triple (jx : ℤ) (jy : ℤ) (jz : ℤ))).snd.readCount
          = t.readCount
            + (if t.bufferedPlane = some (jz : ℤ) ∧ t.bufferedRow = some (jy : ℤ)
                then 0 else 1)
        ∧ (getitem t (VoxItem.triple (jx : ℤ) (jy : ℤ) (jz : ℤ))).snd.bufferedPlane
            = some (jz : ℤ)
        ∧ (getitem t (VoxItem.triple (jx : ℤ) (jy : ℤ) (jz : ℤ))).snd.bufferedRow
            = some (jy : ℤ) := by
    intro t jx jy jz twf hjx hjy hjz
    rw [getitem_triple_eq, getitemAt_snd t jx jy jz twf hjx hjy hjz]
    exact ⟨cacheStep_readCount t (jz : ℤ) (jy : ℤ),
      (cacheStep_marks t (jz : ℤ) (jy : ℤ)).1, (cacheStep_marks t (jz : ℤ) (jy : ℤ)).2⟩
  have hco1 : (cacheStep s (iz : ℤ) (iy : ℤ)).core = s.core := cacheStep_core s _ _
  have hco2 : (cacheStep (cacheStep s (iz : ℤ) (iy : ℤ)) (iz' : ℤ) (iy' : ℤ)).core = s.core :=
    (cacheStep_core (cacheStep s (iz : ℤ) (iy : ℤ)) _ _).trans hco1
  have hm1 := cacheStep_marks s (iz : ℤ) (iy : ℤ)
  have hm2 := cacheStep_marks (cacheStep s (iz : ℤ) (iy : ℤ)) (iz' : ℤ) (iy' : ℤ)
  have hrc1 : (cacheStep s (iz : ℤ) (iy : ℤ)).readCount = s.readCount + 1 := by
    rw [cacheStep_readCount, if_neg hmiss]
  have hmiss2 : ¬((cacheStep s (iz : ℤ) (iy : ℤ)).bufferedPlane = some (iz' : ℤ)
      ∧ (cacheStep s (iz : ℤ) (iy : ℤ)).bufferedRow = some (iy' : ℤ)) := by
    rw [hm1.1, hm1.2]
    rintro ⟨ha, hb⟩
    apply hne
    constructor
    · exact_mod_cast (Option.some.inj ha).symm
    · exact_mod_cast (Option.some.inj hb).symm
  have hrc2 : (cacheStep (cacheStep s (iz : ℤ) (iy : ℤ)) (iz' : ℤ) (iy' : ℤ)).readCount
      = s.readCount + 2 := by
    rw [cacheStep_readCount, if_neg hmiss2, hrc1]
  have hmiss3 : ¬((cacheStep (cacheStep s (iz : ℤ) (iy : ℤ)) (iz' : ℤ) (iy' : ℤ)).bufferedPlane
        = some (iz : ℤ)
      ∧ (cacheStep (cacheStep s (iz : ℤ) (iy : ℤ)) (iz' : ℤ) (iy' : ℤ)).bufferedRow
        = some (iy : ℤ)) := by
    rw [hm2.1, hm2.2]
    rintro ⟨ha, hb⟩
    apply hne
    constructor
    · exact_mod_cast Option.some.inj ha
    · exact_mod_cast Option.some.inj hb
  have hrc3 : (cacheStep (cacheStep (cacheStep s (iz : ℤ) (iy : ℤ)) (iz' : ℤ) (iy' : ℤ))
      (iz : ℤ) (iy : ℤ)).readCount = s.readCount + 3 := by
    rw [cacheStep_readCount, if_neg hmiss3, hrc2]
  have e1 : sweepRow s iy iz s.core.nx = cacheStep s (iz : ℤ) (iy : ℤ) :=
    sweepRow_eq s iy iz wf hy hz hnx
  have e2 : sweepRow (cacheStep s (iz : ℤ) (iy : ℤ)) iy' iz' s.core.nx
      = cacheStep (cacheStep s (iz : ℤ) (iy : ℤ)) (iz' : ℤ) (iy' : ℤ) := by
    have h := sweepRow_eq (cacheStep s (iz : ℤ) (iy : ℤ)) iy' iz'
      (by rw [hco1]; exact wf) (by rw [hco1]; exact hy') (by rw [hco1]; exact hz')
      (by rw [hco1]; exact hnx)
    rw [hco1] at h
    exact h
  have e3 : sweepRow (cacheStep (cacheStep s (iz : ℤ) (iy : ℤ)) (iz' : ℤ) (iy' : ℤ)) iy iz
      s.core.nx
      = cacheStep (cacheStep (cacheStep s (iz : ℤ) (iy : ℤ)) (iz' : ℤ) (iy' : ℤ))
          (iz : ℤ) (iy : ℤ) := by
    have h := sweepRow_eq (cacheStep (cacheStep s (iz : ℤ) (iy : ℤ)) (iz' : ℤ) (iy' : ℤ))
      iy iz
      (by rw [hco2]; exact wf) (by rw [hco2]; exact hy) (by rw [hco2]; exact hz)
      (by rw [hco2]; exact hnx)
    rw [hco2] at h
    exact h
  refine ⟨part1, ?_, ?_, ?_⟩
  · rw [e1]
    exact hrc1
  · rw [e1, e2]
    exact hrc2
  · rw [e1, e2, e3]
    exact hrc3

/-- Witness for C6 at the demo voxset: sweep row (y=0, z=0), then row
(y=1, z=0), then row (y=0, z=0) again. -/
theorem c6_row_cache_witness :
    (¬(demoS.bufferedPlane = some ((0 : ℕ) : ℤ)
        ∧ demoS.bufferedRow = some ((0 : ℕ) : ℤ))
      ∧ ¬((0 : ℕ) = 0 ∧ (1 : ℕ) = 0)) ∧
      ((∀ (t : VoxState) (jx jy jz : ℕ), WF t.core →
        jx < t.core.nx → jy < t.core.ny → jz < t.core.nz →
        (getitem t (VoxItem.triple (jx : ℤ) (jy : ℤ) (jz : ℤ))).snd.readCount
            = t.readCount
              + (if t.bufferedPlane = some (jz : ℤ) ∧ t.bufferedRow = some (jy : ℤ)
                  then 0 else 1)
          ∧ (getitem t (VoxItem.triple (jx : ℤ) (jy : ℤ) (jz : ℤ))).snd.bufferedPlane
              = some (jz : ℤ)
          ∧ (getitem t (VoxItem.triple (jx : ℤ) (jy : ℤ) (jz : ℤ))).snd.bufferedRow
              = some (jy : ℤ))
      ∧ (sweepRow demoS 0 0 demoS.core.nx).readCount = demoS.readCount + 1
      ∧ (sweepRow (sweepRow demoS 0 0 demoS.core.nx) 1 0 demoS.core.nx).readCount
          = demoS.readCount + 2
      ∧ (sweepRow (sweepRow (sweepRow demoS 0 0 demoS.core.nx) 1 0 demoS.core.nx) 0 0
            demoS.core.nx).readCount
          = demoS.readCount + 3) :=
  ⟨⟨by decide, by decide⟩,
    c6_row_cache_single_slot demoS 0 0 1 0 demoWF (by decide) (by decide) (by decide)
      (by decide) (by decide) (by decide) (by decide)⟩
